import Mathlib

/-
  Verification of the event-detection and frame-acquisition core of
  video_to_pdf_by_sound.py.

  Timestamps (seconds) are modelled as rationals.  The external frame-grab
  service (ffmpeg still-frame extraction, observed through the existence of
  the output file) is modelled as a Boolean oracle on the seek timestamp,
  indexed by the 1-based page number that determines the output path.
-/

namespace VideoToPdf

/-- Embedding of filter_final_clicks (lines 30-48 of the source).  The
Python for-loop over time_stamps[1:] carries the pair
(filtered, group); only the last member of group is ever read, and group
is always non-empty, so getLastD 0 reads it. -/
def filterStep (delta : ℚ) (st : List ℚ × List ℚ) (current : ℚ) : List ℚ × List ℚ :=
  if current - st.2.getLastD 0 ≤ delta then
    (st.1, st.2 ++ [current])
  else
    (st.1 ++ [st.2.getLastD 0], [current])

/-- filter_final_clicks: the empty-input guard, the loop over the tail
starting from the state ([], [time_stamps[0]]), and the final append of
the last member of the open group. -/
def filter_final_clicks (time_stamps : List ℚ) (delta : ℚ) : List ℚ :=
  match time_stamps with
  | [] => []
  | t0 :: rest =>
      let st := rest.foldl (filterStep delta) ([], [t0])
      st.1 ++ [st.2.getLastD 0]

/-- Recursive characterization of the loop: the state is reduced to the
last member of the current group. -/
def filterLoop (delta : ℚ) (g : ℚ) : List ℚ → List ℚ
  | [] => [g]
  | current :: rest =>
      if current - g ≤ delta then filterLoop delta current rest
      else g :: filterLoop delta current rest

/-- Greedy forward chained grouping, written from the words of the spec
(section 4.2): start a group at the first timestamp; each subsequent
timestamp joins the current group iff it is within delta of the current
last member of the group, otherwise the group is closed and a new one
started.  Used only to compare against filter_final_clicks. -/
def specGroupsAux (delta : ℚ) (cur : List ℚ) : List ℚ → List (List ℚ)
  | [] => [cur]
  | c :: rest =>
      if c - cur.getLastD 0 ≤ delta then specGroupsAux delta (cur ++ [c]) rest
      else cur :: specGroupsAux delta [c] rest

/-- The grouping pass of the spec, on a whole timestamp list. -/
def spec_groups (delta : ℚ) : List ℚ → List (List ℚ)
  | [] => []
  | t :: rest => specGroupsAux delta [t] rest

/-- Round half to even, the rule of the Python built-in round, applied to
the ideal rational value. -/
def roundHalfEven (q : ℚ) : ℤ :=
  if q - ⌊q⌋ < 1/2 then ⌊q⌋
  else if 1/2 < q - ⌊q⌋ then ⌊q⌋ + 1
  else if ⌊q⌋ % 2 = 0 then ⌊q⌋ else ⌊q⌋ + 1

/-- Rounding to two decimal places: round(x, 2) in the source. -/
def pyRound2 (q : ℚ) : ℚ := (roundHalfEven (q * 100) : ℚ) / 100

/-- Seek timestamp of one retry: line 64 of the source,
adjusted_t = max(0, round(t - pre_offset + retry * delay_step, 2)). -/
def adjusted_t (t pre_offset delay_step : ℚ) (retry : ℕ) : ℚ :=
  max 0 (pyRound2 (t - pre_offset + (retry : ℚ) * delay_step))

/-- The retry loop of lines 63-76: fuel counts the retries still allowed,
retry is the current retry index.  Returns the list of seek timestamps
actually issued together with the timestamp of the first successful grab,
none when every retry failed.  The external frame-grab service is the
oracle grab (the file-existence test of line 73). -/
def retryLoop (grab : ℚ → Bool) (t pre_offset delay_step : ℚ) :
    ℕ → ℕ → List ℚ × Option ℚ
  | 0, _ => ([], none)
  | fuel + 1, retry =>
      if grab (adjusted_t t pre_offset delay_step retry) then
        ([adjusted_t t pre_offset delay_step retry],
         some (adjusted_t t pre_offset delay_step retry))
      else
        (adjusted_t t pre_offset delay_step retry
           :: (retryLoop grab t pre_offset delay_step fuel (retry + 1)).1,
         (retryLoop grab t pre_offset delay_step fuel (retry + 1)).2)

/-- The Resilient Frame Locator for one target timestamp: the retry loop
started at retry index 0 with max_retries fuel. -/
def locate_frame (grab : ℚ → Bool) (t : ℚ) (max_retries : ℕ)
    (delay_step pre_offset : ℚ) : List ℚ × Option ℚ :=
  retryLoop grab t pre_offset delay_step max_retries 0

/-- One attempted page acquisition: 1-based page index (the number in the
output filename), the target timestamp driving the retry loop, the seek
timestamps issued, and the successful seek timestamp when one grab
produced the image file. -/
structure Acquisition where
  index : ℕ
  target : ℚ
  attempts : List ℚ
  result : Option ℚ
deriving Repr, DecidableEq

/-- The enumerate loop of lines 61-79: one acquisition per timestamp, with
1-based page indices starting at idx0 + 1.  The oracle grab takes the page
index first because the output path depends on it. -/
def pageLoop (grab : ℕ → ℚ → Bool) (max_retries : ℕ) (delay_step pre_offset : ℚ) :
    ℕ → List ℚ → List Acquisition
  | _, [] => []
  | idx0, t :: rest =>
      ⟨idx0 + 1, t,
       (retryLoop (grab (idx0 + 1)) t pre_offset delay_step max_retries 0).1,
       (retryLoop (grab (idx0 + 1)) t pre_offset delay_step max_retries 0).2⟩
        :: pageLoop grab max_retries delay_step pre_offset (idx0 + 1) rest

/-- extract_images, lines 61-103: the per-event loop plus, when the list
is non-empty, one synthesized trailing acquisition at the last timestamp
plus 1.0 seconds, at page index len + 1. -/
def extract_images (grab : ℕ → ℚ → Bool) (time_stamps : List ℚ)
    (max_retries : ℕ) (delay_step pre_offset : ℚ) : List Acquisition :=
  if time_stamps.isEmpty then
    pageLoop grab max_retries delay_step pre_offset 0 time_stamps
  else
    pageLoop grab max_retries delay_step pre_offset 0 time_stamps
      ++ [⟨time_stamps.length + 1, time_stamps.getLastD 0 + 1,
           (retryLoop (grab (time_stamps.length + 1)) (time_stamps.getLastD 0 + 1)
             pre_offset delay_step max_retries 0).1,
           (retryLoop (grab (time_stamps.length + 1)) (time_stamps.getLastD 0 + 1)
             pre_offset delay_step max_retries 0).2⟩]

/-- The image files present after a run: exactly the indices of the
acquisitions whose retry loop succeeded (each success writes
img{index:04d}.png once and the loop breaks). -/
def acquired_images (acqs : List Acquisition) : List ℕ :=
  (acqs.filter (fun a => a.result.isSome)).map Acquisition.index

/-- images_to_pdf, lines 106-117, on the sorted list of present image
files: some pages when the compositor (the PIL save call) is invoked on
them, none when the list is empty and only the warning is printed. -/
def images_to_pdf (files : List ℕ) : Option (List ℕ) :=
  if files.isEmpty then none else some files

/-- The clearing loop of lines 57-59 on the image folder listing: a file
is removed iff its name ends in .png; the result lists the files left. -/
def clear_images : List String → List String
  | [] => []
  | f :: rest =>
      if f.endsWith ".png" then clear_images rest
      else f :: clear_images rest

lemma getLastD_concat (l : List ℚ) (a d : ℚ) : (l ++ [a]).getLastD d = a := by
  induction l with
  | nil => rfl
  | cons x xs ih =>
      cases xs with
      | nil => rfl
      | cons y ys => simpa using ih

lemma foldl_filterStep (delta : ℚ) :
    ∀ (rest filtered g : List ℚ),
      (rest.foldl (filterStep delta) (filtered, g)).1
        ++ [(rest.foldl (filterStep delta) (filtered, g)).2.getLastD 0]
      = filtered ++ filterLoop delta (g.getLastD 0) rest := by
  intro rest
  induction rest with
  | nil => intro filtered g; rfl
  | cons c rest ih =>
      intro filtered g
      by_cases h : c - g.getLastD 0 ≤ delta
      · have hstep : filterStep delta (filtered, g) c = (filtered, g ++ [c]) := by
          simp only [filterStep]; rw [if_pos h]
        calc (((c :: rest).foldl (filterStep delta) (filtered, g)).1
                ++ [((c :: rest).foldl (filterStep delta) (filtered, g)).2.getLastD 0])
            = ((rest.foldl (filterStep delta) (filtered, g ++ [c])).1
                ++ [(rest.foldl (filterStep delta) (filtered, g ++ [c])).2.getLastD 0]) := by
              rw [List.foldl_cons, hstep]
          _ = filtered ++ filterLoop delta ((g ++ [c]).getLastD 0) rest := ih filtered (g ++ [c])
          _ = filtered ++ filterLoop delta (g.getLastD 0) (c :: rest) := by
              rw [getLastD_concat, filterLoop, if_pos h]
      · have hstep : filterStep delta (filtered, g) c
            = (filtered ++ [g.getLastD 0], [c]) := by
          simp only [filterStep]; rw [if_neg h]
        calc (((c :: rest).foldl (filterStep delta) (filtered, g)).1
                ++ [((c :: rest).foldl (filterStep delta) (filtered, g)).2.getLastD 0])
            = ((rest.foldl (filterStep delta) (filtered ++ [g.getLastD 0], [c])).1
                ++ [(rest.foldl (filterStep delta) (filtered ++ [g.getLastD 0], [c])).2.getLastD 0]) := by
              rw [List.foldl_cons, hstep]
          _ = (filtered ++ [g.getLastD 0]) ++ filterLoop delta (([c] : List ℚ).getLastD 0) rest :=
              ih (filtered ++ [g.getLastD 0]) [c]
          _ = filtered ++ filterLoop delta (g.getLastD 0) (c :: rest) := by
              rw [filterLoop, if_neg h]
              simp

lemma filter_final_clicks_nil (delta : ℚ) : filter_final_clicks [] delta = [] := rfl

lemma filter_final_clicks_cons (delta t0 : ℚ) (rest : List ℚ) :
    filter_final_clicks (t0 :: rest) delta = filterLoop delta t0 rest := by
  have h := foldl_filterStep delta rest [] [t0]
  simpa [filter_final_clicks] using h

lemma specGroupsAux_map_last (delta : ℚ) :
    ∀ (rest cur : List ℚ),
      (specGroupsAux delta cur rest).map (fun grp => grp.getLastD 0)
        = filterLoop delta (cur.getLastD 0) rest := by
  intro rest
  induction rest with
  | nil => intro cur; rfl
  | cons c rest ih =>
      intro cur
      by_cases h : c - cur.getLastD 0 ≤ delta
      · rw [specGroupsAux, if_pos h, filterLoop, if_pos h, ih (cur ++ [c]),
          getLastD_concat]
      · rw [specGroupsAux, if_neg h, filterLoop, if_neg h, List.map_cons,
          ih [c]]
        rfl

lemma filter_eq_groups_last (delta : ℚ) (ts : List ℚ) :
    filter_final_clicks ts delta
      = (spec_groups delta ts).map (fun grp => grp.getLastD 0) := by
  cases ts with
  | nil => rfl
  | cons t rest =>
      rw [filter_final_clicks_cons, spec_groups, specGroupsAux_map_last]
      rfl

lemma filterLoop_ne_nil (delta g : ℚ) : ∀ rest, filterLoop delta g rest ≠ [] := by
  intro rest
  induction rest generalizing g with
  | nil => simp [filterLoop]
  | cons c rest ih =>
      by_cases h : c - g ≤ delta
      · rw [filterLoop, if_pos h]; exact ih c
      · rw [filterLoop, if_neg h]; simp

lemma filterLoop_head_ge (delta : ℚ) :
    ∀ (rest : List ℚ) (g : ℚ), List.Chain' (· ≤ ·) (g :: rest) →
      ∀ x ∈ (filterLoop delta g rest).head?, g ≤ x := by
  intro rest
  induction rest with
  | nil => intro g _ x hx; simp [filterLoop] at hx; simp [hx]
  | cons c rest ih =>
      intro g hch x hx
      have hgc : g ≤ c := (List.chain'_cons.mp hch).1
      have hch2 : List.Chain' (· ≤ ·) (c :: rest) := (List.chain'_cons.mp hch).2
      by_cases h : c - g ≤ delta
      · rw [filterLoop, if_pos h] at hx
        exact le_trans hgc (ih c hch2 x hx)
      · rw [filterLoop, if_neg h] at hx
        simp at hx
        simp [hx]

lemma filterLoop_gap (delta : ℚ) :
    ∀ (rest : List ℚ) (g : ℚ), List.Chain' (· ≤ ·) (g :: rest) →
      List.Chain' (fun a b => delta < b - a) (filterLoop delta g rest) := by
  intro rest
  induction rest with
  | nil => intro g _; simp [filterLoop]
  | cons c rest ih =>
      intro g hch
      have hgc : g ≤ c := (List.chain'_cons.mp hch).1
      have hch2 : List.Chain' (· ≤ ·) (c :: rest) := (List.chain'_cons.mp hch).2
      by_cases h : c - g ≤ delta
      · rw [filterLoop, if_pos h]
        exact ih c hch2
      · rw [filterLoop, if_neg h]
        refine List.chain'_cons'.mpr ⟨?_, ih c hch2⟩
        intro x hx
        have hcx : c ≤ x := filterLoop_head_ge delta rest c hch2 x hx
        have : delta < c - g := lt_of_not_le h
        linarith

lemma filterLoop_sublist (delta : ℚ) :
    ∀ (rest : List ℚ) (g : ℚ), List.Sublist (filterLoop delta g rest) (g :: rest) := by
  intro rest
  induction rest with
  | nil => intro g; simp [filterLoop]
  | cons c rest ih =>
      intro g
      by_cases h : c - g ≤ delta
      · rw [filterLoop, if_pos h]
        exact List.Sublist.cons g (ih c)
      · rw [filterLoop, if_neg h]
        exact List.Sublist.cons₂ g (ih c)

lemma filterLoop_sorted (delta : ℚ) :
    ∀ (rest : List ℚ) (g : ℚ), List.Chain' (· ≤ ·) (g :: rest) →
      List.Chain' (· ≤ ·) (filterLoop delta g rest) := by
  intro rest
  induction rest with
  | nil => intro g _; simp [filterLoop]
  | cons c rest ih =>
      intro g hch
      have hgc : g ≤ c := (List.chain'_cons.mp hch).1
      have hch2 : List.Chain' (· ≤ ·) (c :: rest) := (List.chain'_cons.mp hch).2
      by_cases h : c - g ≤ delta
      · rw [filterLoop, if_pos h]
        exact ih c hch2
      · rw [filterLoop, if_neg h]
        refine List.chain'_cons'.mpr ⟨?_, ih c hch2⟩
        intro x hx
        exact le_trans hgc (filterLoop_head_ge delta rest c hch2 x hx)

lemma filterLoop_fixpoint (delta : ℚ) :
    ∀ (rest : List ℚ) (g : ℚ),
      List.Chain' (fun a b => delta < b - a) (g :: rest) →
      filterLoop delta g rest = g :: rest := by
  intro rest
  induction rest with
  | nil => intro g _; rfl
  | cons c rest ih =>
      intro g hch
      have hgc : delta < c - g := (List.chain'_cons.mp hch).1
      have hch2 : List.Chain' (fun a b => delta < b - a) (c :: rest) :=
        (List.chain'_cons.mp hch).2
      rw [filterLoop, if_neg (not_le.mpr hgc), ih c hch2]

lemma filter_of_gap (delta : ℚ) (l : List ℚ) :
    List.Chain' (fun a b => delta < b - a) l → filter_final_clicks l delta = l := by
  cases l with
  | nil => intro _; rfl
  | cons t rest =>
      intro h
      rw [filter_final_clicks_cons]
      exact filterLoop_fixpoint delta rest t h

lemma filter_gap_chain (delta : ℚ) (ts : List ℚ)
    (h : List.Chain' (· ≤ ·) ts) :
    List.Chain' (fun a b => delta < b - a) (filter_final_clicks ts delta) := by
  cases ts with
  | nil => simp [filter_final_clicks_nil]
  | cons t rest =>
      rw [filter_final_clicks_cons]
      exact filterLoop_gap delta rest t h

lemma adjusted_t_nonneg (t pre_offset delay_step : ℚ) (retry : ℕ) :
    0 ≤ adjusted_t t pre_offset delay_step retry :=
  le_max_left 0 _

lemma retryLoop_succ_pos (grab : ℚ → Bool) (t pre d : ℚ) (n k0 : ℕ)
    (hg : grab (adjusted_t t pre d k0) = true) :
    retryLoop grab t pre d (n + 1) k0
      = ([adjusted_t t pre d k0], some (adjusted_t t pre d k0)) := by
  rw [retryLoop, if_pos hg]

lemma retryLoop_succ_neg (grab : ℚ → Bool) (t pre d : ℚ) (n k0 : ℕ)
    (hg : grab (adjusted_t t pre d k0) = false) :
    retryLoop grab t pre d (n + 1) k0
      = (adjusted_t t pre d k0 :: (retryLoop grab t pre d n (k0 + 1)).1,
         (retryLoop grab t pre d n (k0 + 1)).2) := by
  rw [retryLoop, if_neg (by simp [hg])]

lemma retryLoop_length_le (grab : ℚ → Bool) (t pre d : ℚ) :
    ∀ (fuel k0 : ℕ), (retryLoop grab t pre d fuel k0).1.length ≤ fuel := by
  intro fuel
  induction fuel with
  | zero => intro k0; simp [retryLoop]
  | succ n ih =>
      intro k0
      cases hg : grab (adjusted_t t pre d k0) with
      | true => rw [retryLoop_succ_pos grab t pre d n k0 hg]; simp
      | false =>
          rw [retryLoop_succ_neg grab t pre d n k0 hg]
          simpa using Nat.succ_le_succ (ih (k0 + 1))

lemma retryLoop_nonneg (grab : ℚ → Bool) (t pre d : ℚ) :
    ∀ (fuel k0 : ℕ) (a : ℚ), a ∈ (retryLoop grab t pre d fuel k0).1 → 0 ≤ a := by
  intro fuel
  induction fuel with
  | zero => intro k0 a ha; simp [retryLoop] at ha
  | succ n ih =>
      intro k0 a ha
      cases hg : grab (adjusted_t t pre d k0) with
      | true =>
          rw [retryLoop_succ_pos grab t pre d n k0 hg] at ha
          simp at ha
          rw [ha]
          exact adjusted_t_nonneg t pre d k0
      | false =>
          rw [retryLoop_succ_neg grab t pre d n k0 hg] at ha
          simp at ha
          rcases ha with ha | ha
          · rw [ha]; exact adjusted_t_nonneg t pre d k0
          · exact ih (k0 + 1) a ha

lemma retryLoop_getElem (grab : ℚ → Bool) (t pre d : ℚ) :
    ∀ (fuel k0 i : ℕ), i < (retryLoop grab t pre d fuel k0).1.length →
      (retryLoop grab t pre d fuel k0).1[i]? = some (adjusted_t t pre d (k0 + i)) := by
  intro fuel
  induction fuel with
  | zero => intro k0 i hi; simp [retryLoop] at hi
  | succ n ih =>
      intro k0 i hi
      cases hg : grab (adjusted_t t pre d k0) with
      | true =>
          rw [retryLoop_succ_pos grab t pre d n k0 hg] at hi ⊢
          simp at hi
          subst hi
          simp
      | false =>
          rw [retryLoop_succ_neg grab t pre d n k0 hg] at hi ⊢
          cases i with
          | zero => simp
          | succ j =>
              simp only [List.getElem?_cons_succ]
              have hj : j < (retryLoop grab t pre d n (k0 + 1)).1.length := by
                simp at hi
                omega
              rw [ih (k0 + 1) j hj, show k0 + 1 + j = k0 + (j + 1) by omega]

lemma retryLoop_failed_before (grab : ℚ → Bool) (t pre d : ℚ) :
    ∀ (fuel k0 i : ℕ), i + 1 < (retryLoop grab t pre d fuel k0).1.length →
      grab (adjusted_t t pre d (k0 + i)) = false := by
  intro fuel
  induction fuel with
  | zero => intro k0 i hi; simp [retryLoop] at hi
  | succ n ih =>
      intro k0 i hi
      cases hg : grab (adjusted_t t pre d k0) with
      | true =>
          rw [retryLoop_succ_pos grab t pre d n k0 hg] at hi
          simp at hi
      | false =>
          rw [retryLoop_succ_neg grab t pre d n k0 hg] at hi
          cases i with
          | zero => simpa using hg
          | succ j =>
              have hj : j + 1 < (retryLoop grab t pre d n (k0 + 1)).1.length := by
                simp at hi
                omega
              have hcall := ih (k0 + 1) j hj
              have harith : k0 + 1 + j = k0 + (j + 1) := by omega
              rwa [harith] at hcall

lemma retryLoop_none (grab : ℚ → Bool) (t pre d : ℚ) :
    ∀ (fuel k0 : ℕ), (retryLoop grab t pre d fuel k0).2 = none →
      (retryLoop grab t pre d fuel k0).1.length = fuel
      ∧ ∀ a ∈ (retryLoop grab t pre d fuel k0).1, grab a = false := by
  intro fuel
  induction fuel with
  | zero => intro k0 _; simp [retryLoop]
  | succ n ih =>
      intro k0 hnone
      cases hg : grab (adjusted_t t pre d k0) with
      | true =>
          rw [retryLoop_succ_pos grab t pre d n k0 hg] at hnone
          simp at hnone
      | false =>
          rw [retryLoop_succ_neg grab t pre d n k0 hg] at hnone ⊢
          have h2 := ih (k0 + 1) (by simpa using hnone)
          constructor
          · simpa using h2.1
          · intro a ha
            simp at ha
            rcases ha with ha | ha
            · rw [ha]; exact hg
            · exact h2.2 a ha

lemma retryLoop_some (grab : ℚ → Bool) (t pre d : ℚ) :
    ∀ (fuel k0 : ℕ) (a : ℚ), (retryLoop grab t pre d fuel k0).2 = some a →
      grab a = true ∧ (retryLoop grab t pre d fuel k0).1.getLast? = some a := by
  intro fuel
  induction fuel with
  | zero => intro k0 a h; simp [retryLoop] at h
  | succ n ih =>
      intro k0 a h
      cases hg : grab (adjusted_t t pre d k0) with
      | true =>
          rw [retryLoop_succ_pos grab t pre d n k0 hg] at h ⊢
          simp at h
          subst h
          exact ⟨hg, rfl⟩
      | false =>
          rw [retryLoop_succ_neg grab t pre d n k0 hg] at h ⊢
          have h2 := ih (k0 + 1) a (by simpa using h)
          refine ⟨h2.1, ?_⟩
          simpa using List.mem_getLast?_cons (Option.mem_def.mpr h2.2)

lemma retryLoop_none_of_fail (grab : ℚ → Bool) (t pre d : ℚ)
    (hfail : ∀ a, grab a = false) (fuel k0 : ℕ) :
    (retryLoop grab t pre d fuel k0).2 = none := by
  cases h : (retryLoop grab t pre d fuel k0).2 with
  | none => rfl
  | some a =>
      have := (retryLoop_some grab t pre d fuel k0 a h).1
      rw [hfail a] at this
      exact absurd this (by simp)

lemma retryLoop_length_pos (grab : ℚ → Bool) (t pre d : ℚ) (fuel k0 : ℕ)
    (h : 0 < fuel) : 0 < (retryLoop grab t pre d fuel k0).1.length := by
  cases fuel with
  | zero => omega
  | succ n =>
      cases hg : grab (adjusted_t t pre d k0) with
      | true => rw [retryLoop_succ_pos grab t pre d n k0 hg]; simp
      | false => rw [retryLoop_succ_neg grab t pre d n k0 hg]; simp

/-- C1: for every timestamp list the Event Deduplicator equals greedy
forward chained grouping followed by taking the last member of each
group; on [0.5, 0.6, 0.65, 3.0, 3.05, 6.0] with delta = 1.0 it outputs
[0.65, 3.05, 6.0]; on the empty list it outputs the empty list; on a
single timestamp it outputs that timestamp. -/
theorem filter_final_clicks_correct :
    (∀ (delta : ℚ) (ts : List ℚ),
        filter_final_clicks ts delta
          = (spec_groups delta ts).map (fun grp => grp.getLastD 0))
    ∧ filter_final_clicks [(1:ℚ)/2, 3/5, 13/20, 3, 61/20, 6] 1
        = [(13:ℚ)/20, 61/20, 6]
    ∧ filter_final_clicks ([] : List ℚ) 1 = []
    ∧ (∀ (t delta : ℚ), filter_final_clicks [t] delta = [t]) := by
  refine ⟨fun delta ts => filter_eq_groups_last delta ts,
    by norm_num [filter_final_clicks, filterStep], rfl, ?_⟩
  intro t delta
  rw [filter_final_clicks_cons]
  rfl

/-- C2: on a non-decreasing input, any two consecutive outputs of the
Event Deduplicator are separated by strictly more than delta. -/
theorem filter_final_clicks_gap (ts : List ℚ) (delta : ℚ)
    (h : List.Chain' (· ≤ ·) ts) :
    List.Chain' (fun a b => delta < b - a) (filter_final_clicks ts delta) :=
  filter_gap_chain delta ts h

theorem filter_final_clicks_gap_witness :
    List.Chain' (fun a b => (1:ℚ) < b - a)
      (filter_final_clicks [(1:ℚ)/2, 3/5, 13/20, 3, 61/20, 6] 1) :=
  filter_final_clicks_gap [(1:ℚ)/2, 3/5, 13/20, 3, 61/20, 6] 1
    (by simp [List.chain'_cons]; norm_num)

/-- C3: on a non-decreasing input, the Event Deduplicator is idempotent:
applying filter_final_clicks to its own output with the same delta
returns that output unchanged. -/
theorem filter_final_clicks_idempotent (ts : List ℚ) (delta : ℚ)
    (h : List.Chain' (· ≤ ·) ts) :
    filter_final_clicks (filter_final_clicks ts delta) delta
      = filter_final_clicks ts delta :=
  filter_of_gap delta _ (filter_gap_chain delta ts h)

theorem filter_final_clicks_idempotent_witness :
    filter_final_clicks (filter_final_clicks [(1:ℚ)/2, 3/5, 13/20, 3, 61/20, 6] 1) 1
      = filter_final_clicks [(1:ℚ)/2, 3/5, 13/20, 3, 61/20, 6] 1 :=
  filter_final_clicks_idempotent [(1:ℚ)/2, 3/5, 13/20, 3, 61/20, 6] 1
    (by simp [List.chain'_cons]; norm_num)

/-- C4: on a non-decreasing input, the output of the Event Deduplicator
is at most as long as the input, is a sublist of the input (its elements
occur in the input in input order), and is itself non-decreasing. -/
theorem filter_final_clicks_shape (ts : List ℚ) (delta : ℚ)
    (h : List.Chain' (· ≤ ·) ts) :
    (filter_final_clicks ts delta).length ≤ ts.length
    ∧ List.Sublist (filter_final_clicks ts delta) ts
    ∧ List.Chain' (· ≤ ·) (filter_final_clicks ts delta) := by
  have hsub : List.Sublist (filter_final_clicks ts delta) ts := by
    cases ts with
    | nil => simp [filter_final_clicks_nil]
    | cons t rest =>
        rw [filter_final_clicks_cons]
        exact filterLoop_sublist delta rest t
  refine ⟨hsub.length_le, hsub, ?_⟩
  cases ts with
  | nil => simp [filter_final_clicks_nil]
  | cons t rest =>
      rw [filter_final_clicks_cons]
      exact filterLoop_sorted delta rest t h

theorem filter_final_clicks_shape_witness :
    (filter_final_clicks [(1:ℚ)/2, 3/5, 13/20, 3, 61/20, 6] 1).length
        ≤ ([(1:ℚ)/2, 3/5, 13/20, 3, 61/20, 6] : List ℚ).length
    ∧ List.Sublist (filter_final_clicks [(1:ℚ)/2, 3/5, 13/20, 3, 61/20, 6] 1)
        [(1:ℚ)/2, 3/5, 13/20, 3, 61/20, 6]
    ∧ List.Chain' (· ≤ ·) (filter_final_clicks [(1:ℚ)/2, 3/5, 13/20, 3, 61/20, 6] 1) :=
  filter_final_clicks_shape [(1:ℚ)/2, 3/5, 13/20, 3, 61/20, 6] 1
    (by simp [List.chain'_cons]; norm_num)

/-- C5: the Resilient Frame Locator issues at most max_retries frame-grab
attempts, every seek timestamp it issues is non-negative, and for target
0.3 with pre_offset 0.6 the first attempt seeks at exactly 0.0, whatever
the delay step. -/
theorem locate_frame_bounded_nonneg :
    ∀ (grab : ℚ → Bool) (t : ℚ) (max_retries : ℕ) (delay_step pre_offset : ℚ),
      (locate_frame grab t max_retries delay_step pre_offset).1.length ≤ max_retries
      ∧ (∀ a ∈ (locate_frame grab t max_retries delay_step pre_offset).1, 0 ≤ a)
      ∧ (∀ d2 : ℚ, adjusted_t (3/10) (3/5) d2 0 = 0) := by
  intro grab t mr d pre
  refine ⟨retryLoop_length_le grab t pre d mr 0,
    fun a ha => retryLoop_nonneg grab t pre d mr 0 a ha, ?_⟩
  intro d2
  norm_num [adjusted_t, pyRound2, roundHalfEven]

theorem locate_frame_bounded_nonneg_witness :
    (locate_frame (fun _ => false) 5 3 (1/10) (3/5)).1.length ≤ 3 :=
  (locate_frame_bounded_nonneg (fun _ => false) 5 3 (1/10) (3/5)).1

/-- C6 counterexample: with target 1.234, pre_offset 0.6, delay_step 0.1,
the first seek timestamp the code issues is 0.63 (the two-decimal rounding
of 0.634), not max(0, t - pre_offset + 0 * delay_step) = 0.634 as the
claim states. -/
theorem locate_frame_seek_cex :
    (locate_frame (fun _ => false) (617/500) 10 (1/10) (3/5)).1[0]?
        = some ((63:ℚ)/100)
    ∧ ((63:ℚ)/100) ≠ max 0 ((617:ℚ)/500 - 3/5 + ((0:ℕ) : ℚ) * (1/10)) := by
  have h0 : adjusted_t (617/500) (3/5) (1/10) 0 = 63/100 := by
    norm_num [adjusted_t, pyRound2, roundHalfEven]
  constructor
  · rw [show (10:ℕ) = 9 + 1 by norm_num, locate_frame,
      retryLoop_succ_neg _ _ _ _ _ _ rfl, h0]
    simp
  · norm_num

/-- C6 amended: the k-th attempt of the Resilient Frame Locator seeks at
exactly max(0, round2(t - pre_offset + k * delay_step)), where round2
rounds to two decimal places as the source does; every attempt before the
last one failed; when no attempt succeeds the loop issues exactly
max_retries attempts; when the result is an image its seek timestamp is
the last attempt issued and the oracle accepted it. -/
theorem locate_frame_attempts_spec :
    ∀ (grab : ℚ → Bool) (t pre_offset delay_step : ℚ) (max_retries : ℕ),
      (∀ k, k < (locate_frame grab t max_retries delay_step pre_offset).1.length →
        (locate_frame grab t max_retries delay_step pre_offset).1[k]?
          = some (adjusted_t t pre_offset delay_step k))
      ∧ (∀ k, k + 1 < (locate_frame grab t max_retries delay_step pre_offset).1.length →
          grab (adjusted_t t pre_offset delay_step k) = false)
      ∧ ((locate_frame grab t max_retries delay_step pre_offset).2 = none →
          (locate_frame grab t max_retries delay_step pre_offset).1.length = max_retries
          ∧ ∀ a ∈ (locate_frame grab t max_retries delay_step pre_offset).1,
              grab a = false)
      ∧ (∀ a, (locate_frame grab t max_retries delay_step pre_offset).2 = some a →
          grab a = true
          ∧ (locate_frame grab t max_retries delay_step pre_offset).1.getLast?
              = some a) := by
  intro grab t pre d mr
  refine ⟨?_, ?_, ?_, ?_⟩
  · intro k hk
    simpa using retryLoop_getElem grab t pre d mr 0 k hk
  · intro k hk
    simpa using retryLoop_failed_before grab t pre d mr 0 k hk
  · exact retryLoop_none grab t pre d mr 0
  · exact retryLoop_some grab t pre d mr 0

theorem locate_frame_attempts_spec_witness :
    (locate_frame (fun _ => true) 1 10 (1/10) (3/5)).1[0]?
      = some (adjusted_t 1 (3/5) (1/10) 0) :=
  (locate_frame_attempts_spec (fun _ => true) 1 (3/5) (1/10) 10).1 0
    (retryLoop_length_pos (fun _ => true) 1 (3/5) (1/10) 10 0 (by norm_num))

lemma pageLoop_length (grab : ℕ → ℚ → Bool) (mr : ℕ) (d pre : ℚ) :
    ∀ (ts : List ℚ) (idx0 : ℕ), (pageLoop grab mr d pre idx0 ts).length = ts.length := by
  intro ts
  induction ts with
  | nil => intro idx0; rfl
  | cons t rest ih =>
      intro idx0
      rw [pageLoop]
      simpa using ih (idx0 + 1)

lemma pageLoop_map_index (grab : ℕ → ℚ → Bool) (mr : ℕ) (d pre : ℚ) :
    ∀ (ts : List ℚ) (idx0 : ℕ),
      (pageLoop grab mr d pre idx0 ts).map Acquisition.index
        = List.range' (idx0 + 1) ts.length := by
  intro ts
  induction ts with
  | nil => intro idx0; rfl
  | cons t rest ih =>
      intro idx0
      rw [pageLoop, List.map_cons, ih (idx0 + 1), List.length_cons,
        List.range'_succ (idx0 + 1) rest.length 1]

lemma pageLoop_map_target (grab : ℕ → ℚ → Bool) (mr : ℕ) (d pre : ℚ) :
    ∀ (ts : List ℚ) (idx0 : ℕ),
      (pageLoop grab mr d pre idx0 ts).map Acquisition.target = ts := by
  intro ts
  induction ts with
  | nil => intro idx0; rfl
  | cons t rest ih =>
      intro idx0
      rw [pageLoop, List.map_cons, ih (idx0 + 1)]

lemma extract_images_eq (grab : ℕ → ℚ → Bool) (ts : List ℚ) (mr : ℕ) (d pre : ℚ)
    (h : ts ≠ []) :
    extract_images grab ts mr d pre
      = pageLoop grab mr d pre 0 ts
        ++ [⟨ts.length + 1, ts.getLastD 0 + 1,
             (retryLoop (grab (ts.length + 1)) (ts.getLastD 0 + 1) pre d mr 0).1,
             (retryLoop (grab (ts.length + 1)) (ts.getLastD 0 + 1) pre d mr 0).2⟩] := by
  rw [extract_images, if_neg (by simpa using h)]

/-- C7 counterexample: on the empty PageEvent list the code performs no
acquisition at all, not 0 + 1 of them. -/
theorem extract_images_empty_cex :
    (extract_images (fun _ _ => true) [] 10 (1/10) (3/5)).length = 0
    ∧ (0 : ℕ) ≠ ([] : List ℚ).length + 1 :=
  ⟨rfl, by norm_num⟩

/-- C7 amended: for every non-empty PageEvent list of length N the Page
Sequencer performs exactly N + 1 acquisitions, with 1-based page indices
1, ..., N + 1 in order, the first N driven by the PageEvents in order and
the last one synthesized at the last PageEvent plus 1.0 seconds; on the
empty list it performs none. -/
theorem extract_images_count_order :
    ∀ (grab : ℕ → ℚ → Bool) (ts : List ℚ) (mr : ℕ) (d pre : ℚ), ts ≠ [] →
      (extract_images grab ts mr d pre).length = ts.length + 1
      ∧ (extract_images grab ts mr d pre).map Acquisition.index
          = List.range' 1 (ts.length + 1)
      ∧ (extract_images grab ts mr d pre).map Acquisition.target
          = ts ++ [ts.getLastD 0 + 1] := by
  intro grab ts mr d pre h
  rw [extract_images_eq grab ts mr d pre h]
  refine ⟨?_, ?_, ?_⟩
  · rw [List.length_append, pageLoop_length]
    simp
  · rw [List.map_append, pageLoop_map_index, List.map_singleton]
    have hc : List.range' 1 (ts.length + 1) = List.range' 1 ts.length ++ [1 + ts.length] := by
      simpa using @List.range'_concat 1 1 ts.length
    rw [hc]
    simp [Nat.add_comm]
  · rw [List.map_append, pageLoop_map_target, List.map_singleton]

theorem extract_images_count_order_witness :
    (extract_images (fun _ _ => true) [(2:ℚ)] 1 (1/10) (3/5)).length
      = [(2:ℚ)].length + 1 :=
  (extract_images_count_order (fun _ _ => true) [(2:ℚ)] 1 (1/10) (3/5) (by simp)).1

lemma pageLoop_getElem_result_none (grab : ℕ → ℚ → Bool) (mr : ℕ) (d pre : ℚ) :
    ∀ (ts : List ℚ) (idx0 k : ℕ), k < ts.length →
      (∀ a, grab (idx0 + k + 1) a = false) →
      ((pageLoop grab mr d pre idx0 ts)[k]?).map Acquisition.result = some none := by
  intro ts
  induction ts with
  | nil => intro idx0 k hk _; simp at hk
  | cons t rest ih =>
      intro idx0 k hk hfail
      cases k with
      | zero =>
          rw [pageLoop]
          simp only [List.getElem?_cons_zero, Option.map_some']
          exact congrArg some
            (retryLoop_none_of_fail (grab (idx0 + 1)) t pre d hfail mr 0)
      | succ j =>
          rw [pageLoop]
          simp only [List.getElem?_cons_succ]
          have hfail2 : ∀ a, grab (idx0 + 1 + j + 1) a = false := by
            rw [show idx0 + 1 + j + 1 = idx0 + (j + 1) + 1 by omega]
            exact hfail
          exact ih (idx0 + 1) j (by simpa using hk) hfail2

lemma pageLoop_getElem_target (grab : ℕ → ℚ → Bool) (mr : ℕ) (d pre : ℚ) :
    ∀ (ts : List ℚ) (idx0 k : ℕ), k < ts.length →
      ((pageLoop grab mr d pre idx0 ts)[k]?).map Acquisition.target = ts[k]? := by
  intro ts
  induction ts with
  | nil => intro idx0 k hk; simp at hk
  | cons t rest ih =>
      intro idx0 k hk
      cases k with
      | zero => rw [pageLoop]; simp
      | succ j =>
          rw [pageLoop]
          simp only [List.getElem?_cons_succ]
          exact ih (idx0 + 1) j (by simpa using hk)

lemma pageLoop_getElem_ext (grab grab2 : ℕ → ℚ → Bool) (mr : ℕ) (d pre : ℚ) :
    ∀ (ts : List ℚ) (idx0 k : ℕ),
      grab2 (idx0 + k + 1) = grab (idx0 + k + 1) →
      (pageLoop grab2 mr d pre idx0 ts)[k]? = (pageLoop grab mr d pre idx0 ts)[k]? := by
  intro ts
  induction ts with
  | nil => intro idx0 k _; rfl
  | cons t rest ih =>
      intro idx0 k hag
      cases k with
      | zero =>
          have hag2 : grab2 (idx0 + 1) = grab (idx0 + 1) := hag
          rw [pageLoop, pageLoop]
          simp only [List.getElem?_cons_zero]
          rw [hag2]
      | succ j =>
          rw [pageLoop, pageLoop]
          simp only [List.getElem?_cons_succ]
          have hag2 : grab2 (idx0 + 1 + j + 1) = grab (idx0 + 1 + j + 1) := by
            rw [show idx0 + 1 + j + 1 = idx0 + (j + 1) + 1 by omega]
            exact hag
          exact ih (idx0 + 1) j hag2

/-- C8: when every grab of one PageEvent's page fails, that page's
acquisition is recorded with no image and the PageEvent's own timestamp,
the run still performs all N + 1 acquisitions, and the acquisitions at
every other position are exactly what they would be under any oracle that
agrees on all other pages: the failure is isolated and aborts nothing. -/
theorem extract_images_failure_isolated :
    ∀ (grab grab2 : ℕ → ℚ → Bool) (ts : List ℚ) (mr : ℕ) (d pre : ℚ) (k : ℕ)
      (hk : k < ts.length)
      (hfail : ∀ a, grab (k + 1) a = false)
      (hagree : ∀ i, i ≠ k + 1 → grab2 i = grab i),
      ((extract_images grab ts mr d pre)[k]?).map Acquisition.result = some none
      ∧ ((extract_images grab ts mr d pre)[k]?).map Acquisition.target = ts[k]?
      ∧ (extract_images grab ts mr d pre).length = ts.length + 1
      ∧ ∀ j, j ≠ k →
          (extract_images grab2 ts mr d pre)[j]? = (extract_images grab ts mr d pre)[j]? := by
  intro grab grab2 ts mr d pre k hk hfail hagree
  have hne : ts ≠ [] := by
    intro hnil
    rw [hnil] at hk
    simp at hk
  have hplen : (pageLoop grab mr d pre 0 ts).length = ts.length :=
    pageLoop_length grab mr d pre ts 0
  have hplen2 : (pageLoop grab2 mr d pre 0 ts).length = ts.length :=
    pageLoop_length grab2 mr d pre ts 0
  have hkp : k < (pageLoop grab mr d pre 0 ts).length := by rw [hplen]; exact hk
  refine ⟨?_, ?_, ?_, ?_⟩
  · rw [extract_images_eq grab ts mr d pre hne, List.getElem?_append_left hkp]
    exact pageLoop_getElem_result_none grab mr d pre ts 0 k hk
      (by rw [show 0 + k + 1 = k + 1 by omega]; exact hfail)
  · rw [extract_images_eq grab ts mr d pre hne, List.getElem?_append_left hkp]
    exact pageLoop_getElem_target grab mr d pre ts 0 k hk
  · rw [extract_images_eq grab ts mr d pre hne, List.length_append, hplen]
    simp
  · intro j hj
    rw [extract_images_eq grab ts mr d pre hne, extract_images_eq grab2 ts mr d pre hne]
    rcases Nat.lt_or_ge j ts.length with hlt | hge
    · rw [List.getElem?_append_left (by rw [hplen2]; exact hlt),
        List.getElem?_append_left (by rw [hplen]; exact hlt)]
      refine pageLoop_getElem_ext grab grab2 mr d pre ts 0 j ?_
      refine hagree (0 + j + 1) ?_
      omega
    · rw [List.getElem?_append_right (by rw [hplen2]; exact hge),
        List.getElem?_append_right (by rw [hplen]; exact hge), hplen, hplen2]
      have htrail : grab2 (ts.length + 1) = grab (ts.length + 1) := by
        refine hagree (ts.length + 1) ?_
        omega
      rw [htrail]

theorem extract_images_failure_isolated_witness :
    ((extract_images (fun _ _ => false) [(2:ℚ)] 1 (1/10) (3/5))[0]?).map
        Acquisition.result = some none :=
  (extract_images_failure_isolated (fun _ _ => false) (fun _ _ => false)
    [(2:ℚ)] 1 (1/10) (3/5) 0 (by simp) (fun _ => rfl) (fun _ _ => rfl)).1

/-- C9: on an empty onset list the PageEvent list is empty, no acquisition
is attempted, and the compositor is not invoked (images_to_pdf takes the
warning branch); and whenever no acquisition succeeded the compositor is
not invoked either. -/
theorem empty_pipeline_no_compositor :
    (∀ delta : ℚ, filter_final_clicks [] delta = [])
    ∧ (∀ (grab : ℕ → ℚ → Bool) (mr : ℕ) (d pre : ℚ),
        extract_images grab [] mr d pre = [])
    ∧ images_to_pdf [] = none
    ∧ (∀ acqs : List Acquisition, (∀ a ∈ acqs, a.result = none) →
        images_to_pdf (acquired_images acqs) = none) := by
  refine ⟨fun _ => rfl, fun _ _ _ _ => rfl, rfl, ?_⟩
  intro acqs hnone
  have hfilter : acqs.filter (fun a => a.result.isSome) = [] := by
    rw [List.filter_eq_nil_iff]
    intro a ha
    rw [hnone a ha]
    simp
  rw [images_to_pdf, acquired_images, hfilter]
  simp

theorem empty_pipeline_no_compositor_witness :
    images_to_pdf (acquired_images [⟨1, 0, [], none⟩]) = none :=
  empty_pipeline_no_compositor.2.2.2 [⟨1, 0, [], none⟩]
    (by intro a ha; simp at ha; rw [ha])

/-- C10: the pre-run clearing of the images folder removes exactly the
files whose names end in .png: a file is still listed after clearing iff
it was listed before and does not end in .png. -/
theorem clear_images_only_png :
    ∀ (files : List String) (f : String),
      f ∈ clear_images files ↔ (f ∈ files ∧ f.endsWith ".png" = false) := by
  intro files f
  induction files with
  | nil => simp [clear_images]
  | cons x rest ih =>
      cases hpng : x.endsWith ".png" with
      | true =>
          rw [clear_images, if_pos hpng, ih]
          constructor
          · rintro ⟨hmem, hf⟩
            exact ⟨List.mem_cons_of_mem x hmem, hf⟩
          · rintro ⟨hmem, hf⟩
            rcases List.mem_cons.mp hmem with he | hmem2
            · rw [he, hpng] at hf
              cases hf
            · exact ⟨hmem2, hf⟩
      | false =>
          rw [clear_images, if_neg (by simp [hpng]), List.mem_cons, ih]
          constructor
          · rintro (he | ⟨hmem, hf⟩)
            · rw [he]
              exact ⟨List.mem_cons_self x rest, hpng⟩
            · exact ⟨List.mem_cons_of_mem x hmem, hf⟩
          · rintro ⟨hmem, hf⟩
            rcases List.mem_cons.mp hmem with he | hmem2
            · exact Or.inl he
            · exact Or.inr ⟨hmem2, hf⟩

end VideoToPdf
